import Mathlib

/-!
Shallow embedding of the NyayBot retrieval-augmented QA pipeline:
the translator with its LRU memoization (`app/nlp_core/translator.py`),
the FAISS-backed document retriever and context assembler
(`app/nlp_core/retriever.py`), the answer generator's post-processing
(`app/nlp_core/generator.py`), and the orchestrating QA service
(`app/services/qa_service.py`).

Python strings are modelled as Lean `String` (or `List Char` where the
code manipulates individual characters), Python floats as exact
rationals, Python dict-shaped responses as structures with `Option`
fields for keys that are present only on some paths, and raised
exceptions as `Except` values.
-/

/-! ## Translator (`app/nlp_core/translator.py`)

`translate_to_english` and `translate_from_english` are decorated with
`functools.lru_cache(maxsize=1000)`.  The decorator consults the cache
before the function body runs, keyed on the argument tuple; on a miss it
runs the body and memoizes whatever value the body returns.  The cache
is modelled as an association list ordered most-recently-used first; the
external Google-translate call is an abstract capability
`String → String → Option String`, `none` meaning the call raised.
Each model function returns `(result, new cache, capability invoked?)`.
-/

/-- Python's `not text or not text.strip()`: the string is empty or
consists only of whitespace. -/
def isBlank (s : String) : Bool :=
  s.data.all Char.isWhitespace

/-- Cache key `(text, language)`; the language is the source language
for `translate_to_english` and the target language for
`translate_from_english` (each function has its own `lru_cache`). -/
abbrev TransCache := List ((String × String) × String)

/-- `maxsize` of the `lru_cache` decorators. -/
def lruCacheLimit : Nat := 1000

/-- First (most recent) cache entry for the key, if any. -/
def lruLookup : TransCache → (String × String) → Option String
  | [], _ => none
  | (k, v) :: rest, key => if k = key then some v else lruLookup rest key

/-- A cache hit moves the entry to the most-recently-used position. -/
def lruTouch (c : TransCache) (key : String × String) : TransCache :=
  match lruLookup c key with
  | none => c
  | some v => (key, v) :: c.filter (fun e => decide (e.1 ≠ key))

/-- A cache miss stores the computed value as most recent, evicting the
least-recently-used entry when the cache is at capacity. -/
def lruInsert (c : TransCache) (key : String × String) (v : String) : TransCache :=
  ((key, v) :: c).take lruCacheLimit

/-- Body of `Translator.translate_to_english` (the code the decorator
wraps): blank text short-circuits to `""`; source language `en` returns
the text unchanged; otherwise the capability is invoked, and on failure
the original text is returned as a degraded fallback.  The boolean
records whether the capability was invoked. -/
def translateToEnglishBody (cap : String → String → Option String)
    (text srcLang : String) : String × Bool :=
  if isBlank text then ("", false)
  else if srcLang = "en" then (text, false)
  else
    match cap text srcLang with
    | some t => (t, true)
    | none => (text, true)

/-- `Translator.translate_to_english` as seen through its `lru_cache`:
a hit returns the memoized value without running the body; a miss runs
the body and memoizes its return value, failure fallback included. -/
def translateToEnglish (cap : String → String → Option String)
    (text srcLang : String) (cache : TransCache) : String × TransCache × Bool :=
  match lruLookup cache (text, srcLang) with
  | some v => (v, lruTouch cache (text, srcLang), false)
  | none =>
    let r := translateToEnglishBody cap text srcLang
    (r.1, lruInsert cache (text, srcLang) r.1, r.2)

/-- Body of `Translator.translate_from_english`: blank text gives `""`;
target language `en` returns the text unchanged; otherwise the
capability is invoked with English source, falling back to the original
text on failure. -/
def translateFromEnglishBody (cap : String → String → Option String)
    (text targetLang : String) : String × Bool :=
  if isBlank text then ("", false)
  else if targetLang = "en" then (text, false)
  else
    match cap text targetLang with
    | some t => (t, true)
    | none => (text, true)

/-- `Translator.translate_from_english` through its own `lru_cache`. -/
def translateFromEnglish (cap : String → String → Option String)
    (text targetLang : String) (cache : TransCache) : String × TransCache × Bool :=
  match lruLookup cache (text, targetLang) with
  | some v => (v, lruTouch cache (text, targetLang), false)
  | none =>
    let r := translateFromEnglishBody cap text targetLang
    (r.1, lruInsert cache (text, targetLang) r.1, r.2)

/-- Values the translation bodies can ever memoize for special keys:
a blank text maps to `""`, and a non-blank text keyed with language
`en` maps to itself.  Both facts hold for every capability, so every
reachable cache satisfies `CacheRespects transKeyPred`. -/
def transKeyPred (k : String × String) (v : String) : Prop :=
  (isBlank k.1 = true → v = "") ∧ (k.2 = "en" → isBlank k.1 = false → v = k.1)

/-- Every entry a lookup can produce from the cache satisfies `P`. -/
def CacheRespects (P : (String × String) → String → Prop) (c : TransCache) : Prop :=
  ∀ k v, lruLookup c k = some v → P k v

/-- Stub capability that always fails, as in end-to-end scenario 3 of
the specification ("a translation-capability stub configured to always
fail"). -/
def capAlwaysFail : String → String → Option String := fun _ _ => none

/-! ## Retriever (`app/nlp_core/retriever.py`)

`DocumentRetriever.retrieve` embeds the query, asks the FAISS
`IndexFlatL2` for the `top_k` nearest stored vectors, and turns each
`(distance, label)` hit into a result dictionary.  The embedding model
is an opaque capability, so a loaded index is modelled by the distance
ranking FAISS exact search would produce for the query at hand:
`ranked` lists `(distance, label)` pairs for the stored vectors in
ascending distance order.  When `top_k` exceeds the number of stored
vectors, FAISS pads the remaining slots with label `-1` and distance
`FLT_MAX`, which the model reproduces.  Python indexing `documents[idx]`
accepts negative indices (counting from the end) and raises on anything
out of range, so the loop is `Option`-valued. -/

/-- Metadata dictionary of a chunk; `source` and `page` are the keys
the service reads (via `.get`, hence optional). -/
structure DocMeta where
  source : Option String
  page : Option Nat
deriving DecidableEq

/-- One entry of the list `DocumentRetriever.retrieve` returns. -/
structure RetrievedItem where
  rank : Nat
  document : String
  metadata : DocMeta
  distance : ℚ
  relevance_score : ℚ
deriving DecidableEq

/-- `1 / (1 + dist)`, the relevance transform applied to each hit. -/
def relevanceScore (dist : ℚ) : ℚ :=
  1 / (1 + dist)

/-- A loaded index: the aligned `documents` and `metadata` sequences,
plus the ascending `(distance, label)` ranking FAISS exact search
yields for the current query's embedding. -/
structure LoadedIndex where
  documents : List String
  metadata : List DocMeta
  ranked : List (ℚ × Nat)

/-- `FLT_MAX`, the distance FAISS reports in padded result slots. -/
def faissPadDistance : ℚ := 340282346638528859811704183484516925440

/-- `index.search(query_embedding, top_k)`: the `top_k` best hits; when
fewer than `top_k` vectors are stored the remaining slots carry label
`-1` and distance `FLT_MAX`. -/
def faissSearch (ranked : List (ℚ × Nat)) (k : Nat) : List (ℚ × Int) :=
  (ranked.take k).map (fun p => (p.1, (p.2 : Int))) ++
    List.replicate (k - ranked.length) (faissPadDistance, -1)

/-- Python list indexing `l[i]`: negative `i` counts from the end;
`none` models an `IndexError`. -/
def pyGet (l : List α) (i : Int) : Option α :=
  if 0 ≤ i then l.get? i.toNat
  else if (-i).toNat ≤ l.length then l.get? (l.length - (-i).toNat)
  else none

/-- The result-building loop of `retrieve`: for the `i`-th hit, the
guard `idx < len(self.documents)` keeps the hit, and the kept hit is
turned into a result with 1-based `rank`, the document and metadata at
the (Python-indexed) label, the distance, and the relevance score. -/
def retrieveAux (docs : List String) (md : List DocMeta) :
    List (ℚ × Int) → Nat → Option (List RetrievedItem)
  | [], _ => some []
  | (dist, lbl) :: rest, i =>
    if lbl < (docs.length : Int) then
      match pyGet docs lbl, pyGet md lbl with
      | some d, some m =>
        (retrieveAux docs md rest (i + 1)).map
          (fun rs =>
            { rank := i + 1, document := d, metadata := m,
              distance := dist, relevance_score := relevanceScore dist } :: rs)
      | _, _ => none
    else retrieveAux docs md rest (i + 1)

/-- `DocumentRetriever.retrieve` on a loaded index. -/
def retrieve (idx : LoadedIndex) (topK : Nat) : Option (List RetrievedItem) :=
  retrieveAux idx.documents idx.metadata (faissSearch idx.ranked topK) 0

/-! ## Context assembly (`DocumentRetriever.get_context_for_generation`)

Formats each retrieved document as a source-labelled block, appends
blocks greedily while the running total of block lengths stays within
`max_length`, stops at the first block that would overflow, and joins
the accepted blocks with the separator `"\n---\n"`. -/

/-- `metadata.get('source', 'Unknown')`. -/
def metaSource (m : DocMeta) : String :=
  m.source.getD "Unknown"

/-- The formatted block built for one retrieved document. -/
def formattedDoc (d : RetrievedItem) : String :=
  "[Source: " ++ metaSource d.metadata ++ "]\n" ++ d.document ++ "\n"

/-- The greedy accumulation loop: `cur` is `current_length`, the sum of
the lengths of the blocks accepted so far. -/
def greedyParts (maxLength : Nat) : List RetrievedItem → Nat → List String
  | [], _ => []
  | d :: rest, cur =>
    let fd := formattedDoc d
    if cur + fd.length ≤ maxLength then
      fd :: greedyParts maxLength rest (cur + fd.length)
    else []

/-- Python `sep.join(parts)`. -/
def joinSep (sep : String) : List String → String
  | [] => ""
  | [x] => x
  | x :: y :: xs => x ++ sep ++ joinSep sep (y :: xs)

/-- `DocumentRetriever.get_context_for_generation`. -/
def getContextForGeneration (docs : List RetrievedItem) (maxLength : Nat) : String :=
  joinSep "\n---\n" (greedyParts maxLength docs 0)

/-- Default `max_length` of `get_context_for_generation`, used by the
QA service, which calls it without an explicit bound. -/
def defaultContextLength : Nat := 2048

/-- Sum of the lengths of a list of blocks. -/
def partsTotal (parts : List String) : Nat :=
  (parts.map String.length).sum

/-! ## Generator post-processing (`app/nlp_core/generator.py`)

`AnswerGenerator.post_process_answer` collapses whitespace via
`' '.join(answer.split())`, upper-cases a lower-case first character,
and appends a final `'.'` unless the answer already ends in `'.'`,
`'!'` or `'?'`.  The character-level operations are modelled on
`List Char`. -/

/-- Scanner behind `splitWs`: `acc` holds the characters of the word
currently being read, most recent first; a whitespace character flushes
a non-empty `acc` as a completed word. -/
def splitWsAux : List Char → List Char → List (List Char)
  | [], acc => if acc = [] then [] else [acc.reverse]
  | c :: cs, acc =>
    if c.isWhitespace then
      if acc = [] then splitWsAux cs [] else acc.reverse :: splitWsAux cs []
    else splitWsAux cs (c :: acc)

/-- Python `str.split()` with no argument: split on runs of whitespace,
discarding empty pieces. -/
def splitWs (s : List Char) : List (List Char) :=
  splitWsAux s []

/-- Python `' '.join(words)`. -/
def joinWords : List (List Char) → List Char
  | [] => []
  | [w] => w
  | w :: x :: ws => w ++ ' ' :: joinWords (x :: ws)

/-- `if answer and answer[0].islower(): answer = answer[0].upper() + answer[1:]`. -/
def capitalizeFirst : List Char → List Char
  | [] => []
  | c :: cs => if c.isLower then c.toUpper :: cs else c :: cs

/-- `if answer and answer[-1] not in '.!?': answer += '.'`. -/
def ensureEndPunct (s : List Char) : List Char :=
  match s.getLast? with
  | none => s
  | some c => if c = '.' ∨ c = '!' ∨ c = '?' then s else s ++ ['.']

/-- `AnswerGenerator.post_process_answer`. -/
def postProcessAnswer (answer : List Char) : List Char :=
  ensureEndPunct (capitalizeFirst (joinWords (splitWs answer)))

/-- Canned message `generate_answer` returns when generation raises. -/
def generatorApology : List Char :=
  ("I apologize, but I encountered an error while generating the " ++
    "answer. Please try rephrasing your question.").data

/-- The tail of `AnswerGenerator.generate_answer` after the opaque
model produced (or failed to produce) a decoded string: a successful
decode is post-processed before being returned; a failure yields the
canned apology. -/
def generateAnswerFromModel (decoded : Except String (List Char)) : List Char :=
  match decoded with
  | .ok a => postProcessAnswer a
  | .error _ => generatorApology

/-- The tail of `AnswerGenerator.generate_summary`: a successful decode
is post-processed; a failure returns the first `maxLength` characters
of the input followed by an ellipsis. -/
def generateSummaryFromModel (text : List Char) (maxLength : Nat)
    (decoded : Except String (List Char)) : List Char :=
  match decoded with
  | .ok s => postProcessAnswer s
  | .error _ => text.take maxLength ++ ['.', '.', '.']

/-! ## QA service (`app/services/qa_service.py`)

`QAService.answer_question` wraps the whole pipeline in one
`try`/`except Exception`.  The component calls that stand for external
capabilities (query translation, retrieval, generation, answer
translation) are fields of an environment and may fail with an
exception, modelled as `Except.error`; the service's own pure steps
(context assembly, source formatting) are the concrete functions.  The
dict-shaped response is a structure whose `Option` fields model keys
present only on some paths. -/

/-- Result dictionary of `Translator.translate_query`. -/
structure TransQueryResult where
  original_query : String
  detected_language : String
  english_query : String
deriving DecidableEq

/-- One entry of the `sources` list built by `QAService._format_sources`. -/
structure SourceInfo where
  rank : Nat
  text : String
  source : String
  page : Option Nat
  relevance_score : ℚ
deriving DecidableEq

/-- Response dictionary of `QAService.answer_question`. -/
structure QAResponse where
  answer : String
  language : String
  success : Bool
  original_query : Option String
  english_query : Option String
  sources : Option (List SourceInfo)
  error : Option String
deriving DecidableEq

/-- The pipeline stages `answer_question` invokes that can raise. -/
structure QAEnv where
  translateQuery : String → Option String → Except String TransQueryResult
  retrieve : String → Option Nat → Except String (List RetrievedItem)
  generateAnswer : String → String → Except String String
  translateAnswer : String → String → Except String String

/-- Python `round` (banker's rounding, ties to even). -/
def pyRoundInt (x : ℚ) : ℤ :=
  if Int.fract x = 1 / 2 then (if Even ⌊x⌋ then ⌊x⌋ else ⌊x⌋ + 1)
  else round x

/-- `round(score, 3)`. -/
def pyRound3 (x : ℚ) : ℚ :=
  (pyRoundInt (x * 1000) : ℚ) / 1000

/-- `doc['document'][:300] + "..."` when longer than 300 characters. -/
def truncateText (s : String) : String :=
  if 300 < s.length then s.take 300 ++ "..." else s

/-- `QAService._format_sources`. -/
def formatSources (docs : List RetrievedItem) : List SourceInfo :=
  docs.map fun d =>
    { rank := d.rank, text := truncateText d.document,
      source := metaSource d.metadata, page := d.metadata.page,
      relevance_score := pyRound3 d.relevance_score }

/-- The fixed answer of the no-results branch. -/
def notFoundAnswer : String :=
  "I couldn\x27t find relevant information to answer your question. " ++
    "Please try rephrasing or ask about a different topic."

/-- The fixed answer of the exception branch. -/
def pipelineErrorAnswer : String :=
  "I apologize, but I encountered an error while processing your " ++
    "question. Please try again."

/-- The dictionary returned when retrieval finds nothing. -/
def noResultsResponse (detectedLanguage : String) : QAResponse :=
  { answer := notFoundAnswer, language := detectedLanguage,
    success := false, original_query := none, english_query := none,
    sources := some [], error := none }

/-- Python `language or "en"`: `None` and the empty string are falsy. -/
def pyLangOr (language : Option String) : String :=
  match language with
  | none => "en"
  | some l => if l.isEmpty then "en" else l

/-- The dictionary built in the `except` branch of `answer_question`. -/
def errorResponse (language : Option String) (e : String) : QAResponse :=
  { answer := pipelineErrorAnswer, language := pyLangOr language,
    success := false, original_query := none, english_query := none,
    sources := none, error := some e }

/-- The `try` body of `QAService.answer_question`: translate the query,
retrieve, short-circuit when nothing was retrieved, assemble context,
generate, translate back, and assemble the success dictionary (with
`sources` only when requested). -/
def answerQuestionBody (env : QAEnv) (query : String)
    (language : Option String) (topK : Option Nat)
    (includeSources : Bool) : Except String QAResponse := do
  let tr ← env.translateQuery query language
  let docs ← env.retrieve tr.english_query topK
  if docs.isEmpty then
    return noResultsResponse tr.detected_language
  let context := getContextForGeneration docs defaultContextLength
  let englishAnswer ← env.generateAnswer tr.english_query context
  let finalAnswer ← env.translateAnswer englishAnswer tr.detected_language
  let base : QAResponse :=
    { answer := finalAnswer, language := tr.detected_language,
      success := true, original_query := some query,
      english_query := some tr.english_query, sources := none,
      error := none }
  return if includeSources then { base with sources := some (formatSources docs) } else base

/-- `QAService.answer_question`: the `try` body with every exception
caught and turned into the error response. -/
def answerQuestion (env : QAEnv) (query : String) (language : Option String)
    (topK : Option Nat) (includeSources : Bool) : QAResponse :=
  match answerQuestionBody env query language topK includeSources with
  | .ok r => r
  | .error e => errorResponse language e

/-- `QAService.batch_answer_questions`: one sequential
`answer_question` call per query, appending each result. -/
def batchAnswerQuestions (env : QAEnv) (queries : List String)
    (language : Option String) : List QAResponse :=
  match queries with
  | [] => []
  | q :: rest =>
    answerQuestion env q language none true :: batchAnswerQuestions env rest language

/-! ## Concrete fixtures

Small concrete indices, documents and environments used to instantiate
the theorems below on executable inputs. -/

/-- A loaded index holding a single document, whose stored vector is at
distance `0` from the query. -/
def singletonIndex : LoadedIndex :=
  { documents := ["Article 14 guarantees equality."],
    metadata := [{ source := some "const.txt", page := some 1 }],
    ranked := [(0, 0)] }

/-- A retrieved chunk with a one-character source and document, whose
formatted block is 14 characters long. -/
def tinyItem : RetrievedItem :=
  { rank := 1, document := "B", metadata := { source := some "A", page := none },
    distance := 0, relevance_score := 1 }

/-- A retrieved chunk used to exercise the first-block-overflow case. -/
def overflowItem : RetrievedItem :=
  { rank := 1, document := "Article 14 guarantees equality.",
    metadata := { source := some "const.txt", page := some 1 },
    distance := 0, relevance_score := 1 }

/-- Environment whose retrieval stage always comes back empty, as in
end-to-end scenario 2 of the specification. -/
def envNoHits : QAEnv :=
  { translateQuery := fun q lang =>
      .ok { original_query := q, detected_language := lang.getD "en", english_query := q },
    retrieve := fun _ _ => .ok [],
    generateAnswer := fun _ _ => .ok "generated",
    translateAnswer := fun a _ => .ok a }

/-- Environment whose translation stage raises. -/
def envStageRaises : QAEnv :=
  { translateQuery := fun _ _ => .error "translation backend down",
    retrieve := fun _ _ => .ok [],
    generateAnswer := fun _ _ => .ok "generated",
    translateAnswer := fun a _ => .ok a }

/-- Cache state after one `translate_to_english("namaste", "hi")` call
against the always-failing capability, starting from an empty cache. -/
def failedOnce : TransCache :=
  (translateToEnglish capAlwaysFail "namaste" "hi" []).2.1

/-! ## Cache lemmas -/

theorem lruLookup_cons (a : String × String) (b : String) (l : TransCache)
    (k : String × String) :
    lruLookup ((a, b) :: l) k = if a = k then some b else lruLookup l k :=
  rfl

theorem lruLookup_filter_ne (c : TransCache) (key k : String × String) (hk : k ≠ key) :
    lruLookup (c.filter (fun e => decide (e.1 ≠ key))) k = lruLookup c k := by
  induction c with
  | nil => rfl
  | cons p rest ih =>
    obtain ⟨a, b⟩ := p
    rw [List.filter_cons]
    by_cases ha : a = key
    · have h1 : decide ((a, b).1 ≠ key) = false := by simp [ha]
      rw [h1, if_neg Bool.false_ne_true, ih, lruLookup_cons,
        if_neg (fun h : a = k => hk (h ▸ ha))]
    · have h1 : decide ((a, b).1 ≠ key) = true := by simp [ha]
      rw [h1, if_pos rfl, lruLookup_cons, lruLookup_cons, ih]

theorem lruLookup_touch (c : TransCache) (key k : String × String) :
    lruLookup (lruTouch c key) k = lruLookup c k := by
  unfold lruTouch
  cases h : lruLookup c key with
  | none => rfl
  | some v =>
    by_cases hk : key = k
    · subst hk
      simp [lruLookup, h]
    · simp only [lruLookup]
      rw [if_neg hk, lruLookup_filter_ne c key k (fun he => hk he.symm)]

theorem lruLookup_take (n : Nat) (c : TransCache) (k : String × String) (v : String)
    (h : lruLookup (c.take n) k = some v) : lruLookup c k = some v := by
  induction c generalizing n with
  | nil => rw [List.take_nil] at h; exact h
  | cons p rest ih =>
    cases n with
    | zero => exact absurd h (by simp [lruLookup])
    | succ m =>
      obtain ⟨a, b⟩ := p
      simp only [List.take_succ_cons, lruLookup] at h ⊢
      by_cases hak : a = k
      · simpa [hak] using h
      · rw [if_neg hak] at h ⊢
        exact ih m h

theorem cacheRespects_nil (P : (String × String) → String → Prop) :
    CacheRespects P [] :=
  fun _ _ h => Option.noConfusion h

theorem cacheRespects_touch {P : (String × String) → String → Prop} {c : TransCache}
    (h : CacheRespects P c) (key : String × String) :
    CacheRespects P (lruTouch c key) := by
  intro k v hv
  exact h k v ((lruLookup_touch c key k) ▸ hv)

theorem cacheRespects_insert {P : (String × String) → String → Prop} {c : TransCache}
    (h : CacheRespects P c) (key : String × String) (v : String) (hv : P key v) :
    CacheRespects P (lruInsert c key v) := by
  intro k w hw
  have hw' := lruLookup_take lruCacheLimit ((key, v) :: c) k w hw
  simp only [lruLookup] at hw'
  by_cases hk : key = k
  · subst hk
    rw [if_pos rfl] at hw'
    exact (Option.some.inj hw') ▸ hv
  · rw [if_neg hk] at hw'
    exact h k w hw'

theorem toEnglishBody_pred (cap : String → String → Option String) (text srcLang : String) :
    transKeyPred (text, srcLang) (translateToEnglishBody cap text srcLang).1 := by
  constructor
  · intro hb
    simp only at hb
    simp [translateToEnglishBody, hb]
  · intro hen hb
    simp only at hen hb
    simp [translateToEnglishBody, hb, hen]

theorem fromEnglishBody_pred (cap : String → String → Option String) (text targetLang : String) :
    transKeyPred (text, targetLang) (translateFromEnglishBody cap text targetLang).1 := by
  constructor
  · intro hb
    simp only at hb
    simp [translateFromEnglishBody, hb]
  · intro hen hb
    simp only at hen hb
    simp [translateFromEnglishBody, hb, hen]

theorem toEnglish_preserves_respects (cap : String → String → Option String)
    (text srcLang : String) (cache : TransCache)
    (h : CacheRespects transKeyPred cache) :
    CacheRespects transKeyPred (translateToEnglish cap text srcLang cache).2.1 := by
  unfold translateToEnglish
  cases hl : lruLookup cache (text, srcLang) with
  | some v => exact cacheRespects_touch h (text, srcLang)
  | none => exact cacheRespects_insert h (text, srcLang) _ (toEnglishBody_pred cap text srcLang)

theorem fromEnglish_preserves_respects (cap : String → String → Option String)
    (text targetLang : String) (cache : TransCache)
    (h : CacheRespects transKeyPred cache) :
    CacheRespects transKeyPred (translateFromEnglish cap text targetLang cache).2.1 := by
  unfold translateFromEnglish
  cases hl : lruLookup cache (text, targetLang) with
  | some v => exact cacheRespects_touch h (text, targetLang)
  | none => exact cacheRespects_insert h (text, targetLang) _ (fromEnglishBody_pred cap text targetLang)

/-! ## Claims about the translator -/

/-- Claim C9: for every input text that is empty or consists only of
whitespace, `translate_to_english(text, sourceLang)` and
`translate_from_english(text, targetLang)` return the empty string, for
every language argument and every capability, without consulting the
translation capability.  The cache hypothesis `CacheRespects
transKeyPred` holds of the empty cache and is preserved by every call,
so it covers every reachable cache state; the no-invocation conclusion
holds even without it. -/
theorem blank_text_short_circuit
    (cap : String → String → Option String) (text lang : String)
    (cache : TransCache) (hc : CacheRespects transKeyPred cache)
    (hb : isBlank text = true) :
    (translateToEnglish cap text lang cache).1 = "" ∧
    (translateToEnglish cap text lang cache).2.2 = false ∧
    (translateFromEnglish cap text lang cache).1 = "" ∧
    (translateFromEnglish cap text lang cache).2.2 = false := by
  unfold translateToEnglish translateFromEnglish
  refine ⟨?_, ?_, ?_, ?_⟩ <;>
    [cases h : lruLookup cache (text, lang);
     cases h : lruLookup cache (text, lang);
     cases h : lruLookup cache (text, lang);
     cases h : lruLookup cache (text, lang)]
  · simp [translateToEnglishBody, hb]
  · exact (hc (text, lang) _ h).1 hb
  · simp [translateToEnglishBody, hb]
  · rfl
  · simp [translateFromEnglishBody, hb]
  · exact (hc (text, lang) _ h).1 hb
  · simp [translateFromEnglishBody, hb]
  · rfl

/-- Witness for C9 at a concrete whitespace-only input. -/
theorem blank_text_short_circuit_witness :
    (translateToEnglish capAlwaysFail "  " "hi" []).1 = "" ∧
    (translateFromEnglish capAlwaysFail "  " "hi" []).2.2 = false := by
  have h := blank_text_short_circuit capAlwaysFail "  " "hi" []
    (cacheRespects_nil transKeyPred) (by decide)
  exact ⟨h.1, h.2.2.2⟩

/-- Claim C4, counterexample: translating the whitespace-only string
`" "` from English to English returns `""`, not the string itself. -/
theorem translate_en_identity_cex :
    (translateToEnglish capAlwaysFail " " "en" []).1 ≠ " " ∧
    (translateToEnglish capAlwaysFail " " "en" []).1 = "" := by
  decide

/-- Claim C4, amended: for every string `t` containing at least one
non-whitespace character, translating `t` with source language equal to
the target (English to English) returns `t` unchanged without invoking
the capability; an empty or whitespace-only `t` instead yields the
empty string (see the counterexample). -/
theorem translate_en_identity
    (cap : String → String → Option String) (text : String)
    (cache : TransCache) (hc : CacheRespects transKeyPred cache)
    (hb : isBlank text = false) :
    (translateToEnglish cap text "en" cache).1 = text ∧
    (translateToEnglish cap text "en" cache).2.2 = false := by
  unfold translateToEnglish
  cases h : lruLookup cache (text, "en") with
  | some v =>
    exact ⟨(hc (text, "en") v h).2 rfl hb, rfl⟩
  | none =>
    constructor
    · simp [translateToEnglishBody, hb]
    · simp [translateToEnglishBody, hb]

/-- Witness for the amended C4 at a concrete non-blank input. -/
theorem translate_en_identity_witness :
    (translateToEnglish capAlwaysFail "hello" "en" []).1 = "hello" :=
  (translate_en_identity capAlwaysFail "hello" []
    (cacheRespects_nil transKeyPred) (by decide)).1

/-- Claim C3, counterexample: with a capability that always fails,
the first `translate_to_english("namaste", "hi")` call stores the
degraded fallback (the original text) in the cache, and the second call
with the same key is a cache hit that does not invoke the capability
again. -/
theorem failed_translation_not_cached_cex :
    lruLookup failedOnce ("namaste", "hi") = some "namaste" ∧
    (translateToEnglish capAlwaysFail "namaste" "hi" failedOnce).2.2 = false ∧
    (translateToEnglish capAlwaysFail "namaste" "hi" failedOnce).1 = "namaste" := by
  decide

/-- Claim C3, amended: when the capability fails on a cache miss, the
degraded fallback (the original text) IS stored in the cache — the
`lru_cache` decorator memoizes the function's return value whether or
not translation succeeded — so a later call with the same key returns
the cached fallback without invoking the capability again. -/
theorem failed_translation_cached
    (cap : String → String → Option String) (text srcLang : String)
    (cache : TransCache) (hb : isBlank text = false)
    (hen : srcLang ≠ "en") (hcap : cap text srcLang = none)
    (hmiss : lruLookup cache (text, srcLang) = none) :
    (translateToEnglish cap text srcLang cache).1 = text ∧
    (translateToEnglish cap text srcLang cache).2.2 = true ∧
    lruLookup (translateToEnglish cap text srcLang cache).2.1 (text, srcLang)
      = some text ∧
    (translateToEnglish cap text srcLang
      (translateToEnglish cap text srcLang cache).2.1).2.2 = false ∧
    (translateToEnglish cap text srcLang
      (translateToEnglish cap text srcLang cache).2.1).1 = text := by
  have hbody : translateToEnglishBody cap text srcLang = (text, true) := by
    simp [translateToEnglishBody, hb, hen, hcap]
  have hfst : translateToEnglish cap text srcLang cache =
      (text, lruInsert cache (text, srcLang) text, true) := by
    unfold translateToEnglish
    rw [hmiss, hbody]
  have hhit : lruLookup (lruInsert cache (text, srcLang) text) (text, srcLang)
      = some text := by
    unfold lruInsert lruCacheLimit
    rw [List.take_succ_cons, lruLookup_cons, if_pos rfl]
  refine ⟨by rw [hfst], by rw [hfst], by rw [hfst]; exact hhit, ?_, ?_⟩
  · rw [hfst]
    unfold translateToEnglish
    rw [hhit]
  · rw [hfst]
    unfold translateToEnglish
    rw [hhit]

/-- Witness for the amended C3 at a concrete failing capability. -/
theorem failed_translation_cached_witness :
    (translateToEnglish capAlwaysFail "namaste" "hi" []).1 = "namaste" ∧
    lruLookup (translateToEnglish capAlwaysFail "namaste" "hi" []).2.1
      ("namaste", "hi") = some "namaste" := by
  have h := failed_translation_cached capAlwaysFail "namaste" "hi" []
    (by decide) (by decide) rfl rfl
  exact ⟨h.1, h.2.2.1⟩

/-! ## Claims about the retriever -/

/-- Claim C1, failing input: an index holding exactly one document,
queried with `top_k = 2`.  FAISS pads the second result slot with label
`-1`; the guard `idx < len(self.documents)` accepts `-1`, and Python
indexing `documents[-1]` yields the last stored document, so the single
stored document is returned twice instead of once.  The guard's own
comment says it is meant to keep only valid indices, and the
specification says an over-large `k` "returns all of them without
error", so this is a slip in the code. -/
theorem retrieve_overfetch_duplicates_document :
    singletonIndex.documents.length = 1 ∧
    (retrieve singletonIndex 2).map (fun rs => rs.map RetrievedItem.document) =
      some ["Article 14 guarantees equality.", "Article 14 guarantees equality."] ∧
    (retrieve singletonIndex 1).map (fun rs => rs.map RetrievedItem.document) =
      some ["Article 14 guarantees equality."] := by
  refine ⟨rfl, ?_, ?_⟩ <;> decide

/-- Every result built by the retrieval loop carries
`relevance_score = 1 / (1 + distance)`. -/
theorem retrieveAux_relevance (docs : List String) (md : List DocMeta) :
    ∀ (hits : List (ℚ × Int)) (i : Nat) (res : List RetrievedItem)
      (r : RetrievedItem),
      retrieveAux docs md hits i = some res → r ∈ res →
      r.relevance_score = relevanceScore r.distance := by
  intro hits
  induction hits with
  | nil =>
    intro i res r h hr
    rw [retrieveAux] at h
    cases h
    cases hr
  | cons p rest ih =>
    intro i res r h hr
    obtain ⟨dist, lbl⟩ := p
    rw [retrieveAux] at h
    by_cases hl : lbl < (docs.length : Int)
    · rw [if_pos hl] at h
      cases hd : pyGet docs lbl with
      | none =>
        rw [hd] at h
        cases hm : pyGet md lbl <;> rw [hm] at h <;> cases h
      | some d =>
        rw [hd] at h
        cases hm : pyGet md lbl with
        | none => rw [hm] at h; cases h
        | some m =>
          rw [hm] at h
          cases hrec : retrieveAux docs md rest (i + 1) with
          | none => rw [hrec] at h; cases h
          | some rs =>
            rw [hrec] at h
            simp only [Option.map_some] at h
            cases h
            rcases List.mem_cons.mp hr with hr1 | hr2
            · subst hr1; rfl
            · exact ih (i + 1) rs r hrec hr2
    · rw [if_neg hl] at h
      exact ih (i + 1) res r h hr

/-- Claim C7: every retrieved result carries
`relevance_score = 1 / (1 + distance)`; for `distance ≥ 0` the score
lies in `(0, 1]`, and it is strictly decreasing in the distance. -/
theorem relevance_score_spec :
    (∀ (idx : LoadedIndex) (k : Nat) (res : List RetrievedItem)
        (r : RetrievedItem),
      retrieve idx k = some res → r ∈ res →
      r.relevance_score = relevanceScore r.distance) ∧
    (∀ d : ℚ, 0 ≤ d → 0 < relevanceScore d ∧ relevanceScore d ≤ 1) ∧
    (∀ d₁ d₂ : ℚ, 0 ≤ d₁ → d₁ < d₂ → relevanceScore d₂ < relevanceScore d₁) := by
  refine ⟨?_, ?_, ?_⟩
  · intro idx k res r h hr
    exact retrieveAux_relevance idx.documents idx.metadata _ 0 res r h hr
  · intro d hd
    have h1 : (0 : ℚ) < 1 + d := by linarith
    constructor
    · exact one_div_pos.mpr h1
    · rw [relevanceScore, div_le_one h1]
      linarith
  · intro d₁ d₂ h1 h2
    have hb : (0 : ℚ) < 1 + d₁ := by linarith
    exact one_div_lt_one_div_of_lt hb (by linarith)

/-- Witness for C7 at concrete distances (and on the concrete
single-document index). -/
theorem relevance_score_spec_witness :
    0 < relevanceScore 3 ∧ relevanceScore 3 ≤ 1 ∧
    relevanceScore 7 < relevanceScore 3 := by
  refine ⟨(relevance_score_spec.2.1 3 (by decide)).1,
    (relevance_score_spec.2.1 3 (by decide)).2,
    relevance_score_spec.2.2 3 7 (by decide) (by decide)⟩

/-! ## Claims about context assembly -/

theorem partsTotal_nil : partsTotal [] = 0 := rfl

theorem partsTotal_cons (x : String) (l : List String) :
    partsTotal (x :: l) = x.length + partsTotal l := by
  simp [partsTotal]

/-- The greedy loop keeps the running total of accepted block lengths
within the budget. -/
theorem greedy_total_le (maxLength : Nat) :
    ∀ (docs : List RetrievedItem) (cur : Nat),
      cur + partsTotal (greedyParts maxLength docs cur) ≤ maxLength ∨
      greedyParts maxLength docs cur = [] := by
  intro docs
  induction docs with
  | nil => intro cur; right; rfl
  | cons d rest ih =>
    intro cur
    by_cases h : cur + (formattedDoc d).length ≤ maxLength
    · left
      rw [greedyParts, if_pos h, partsTotal_cons]
      rcases ih (cur + (formattedDoc d).length) with h2 | h2
      · omega
      · rw [h2, partsTotal_nil]
        omega
    · right
      rw [greedyParts, if_neg h]

theorem greedy_length_le (maxLength : Nat) :
    ∀ (docs : List RetrievedItem) (cur : Nat),
      (greedyParts maxLength docs cur).length ≤ docs.length := by
  intro docs
  induction docs with
  | nil => intro cur; exact Nat.le_refl 0
  | cons d rest ih =>
    intro cur
    rw [greedyParts]
    by_cases h : cur + (formattedDoc d).length ≤ maxLength
    · rw [if_pos h]
      simpa using ih (cur + (formattedDoc d).length)
    · rw [if_neg h]
      simp

/-- Joining adds at most the separator length per block. -/
theorem joinSep_length_le (sep : String) :
    ∀ parts : List String,
      (joinSep sep parts).length ≤ partsTotal parts + sep.length * parts.length := by
  intro parts
  induction parts with
  | nil => simp [joinSep, partsTotal]
  | cons x xs ih =>
    cases xs with
    | nil => simp [joinSep, partsTotal]
    | cons y ys =>
      rw [joinSep, String.length_append, String.length_append, partsTotal_cons]
      have hle := ih
      simp only [List.length_cons] at *
      have hmul : sep.length * (ys.length + 1 + 1) =
          sep.length * (ys.length + 1) + sep.length := by ring
      omega

/-- Claim C2, counterexample: two retrieved chunks whose formatted
blocks are 14 characters each, with `maxChars = 28`.  Both blocks pass
the running-total check (14 + 14 ≤ 28), but the blocks are joined with
the five-character separator, so the returned context is 33 characters
long — the output is NOT bounded by `maxChars`. -/
theorem context_exceeds_max_cex :
    (getContextForGeneration [tinyItem, tinyItem] 28).length = 33 ∧
    ¬((getContextForGeneration [tinyItem, tinyItem] 28).length ≤ 28) := by
  decide

/-- Claim C2, amended: the greedy loop bounds the SUM of the lengths of
the included blocks by `maxChars`, but the separator (5 characters per
join) is not counted, so the full context length is only bounded by
`maxChars + 5 · (number of results)` and can exceed `maxChars` (see the
counterexample).  The second half of the claim stands: when the first
formatted block alone exceeds `maxChars`, the returned string is
empty. -/
theorem context_length_bounds (docs : List RetrievedItem) (maxLength : Nat) :
    partsTotal (greedyParts maxLength docs 0) ≤ maxLength ∧
    (getContextForGeneration docs maxLength).length ≤ maxLength + 5 * docs.length ∧
    (∀ d rest, maxLength < (formattedDoc d).length →
      getContextForGeneration (d :: rest) maxLength = "") := by
  have htot : partsTotal (greedyParts maxLength docs 0) ≤ maxLength := by
    rcases greedy_total_le maxLength docs 0 with h | h
    · omega
    · rw [h, partsTotal_nil]
      omega
  refine ⟨htot, ?_, ?_⟩
  · have hj := joinSep_length_le "\n---\n" (greedyParts maxLength docs 0)
    have hl := greedy_length_le maxLength docs 0
    have hsep : ("\n---\n" : String).length = 5 := rfl
    rw [hsep] at hj
    rw [getContextForGeneration]
    have hmul : 5 * (greedyParts maxLength docs 0).length ≤ 5 * docs.length :=
      Nat.mul_le_mul_left 5 hl
    omega
  · intro d rest h
    rw [getContextForGeneration, greedyParts, if_neg (by omega)]
    rfl

/-- Witness for the amended C2: the first-block-overflow case on a
concrete chunk whose block is longer than the budget of 3. -/
theorem context_length_bounds_witness :
    getContextForGeneration [overflowItem] 3 = "" :=
  (context_length_bounds [overflowItem] 3).2.2 overflowItem [] (by decide)

/-! ## Claims about the generator's post-processing -/

theorem char_isLower_iff (c : Char) :
    c.isLower = true ↔ 97 ≤ c.toNat ∧ c.toNat ≤ 122 := by
  unfold Char.isLower
  rw [Bool.and_eq_true, decide_eq_true_eq, decide_eq_true_eq]
  constructor
  · rintro ⟨h1, h2⟩
    exact ⟨h1, h2⟩
  · rintro ⟨h1, h2⟩
    exact ⟨h1, h2⟩

/-- Upper-casing a character never yields a lower-case ASCII letter:
a lower-case letter maps into `A`–`Z`, and any other character is
returned unchanged and was not lower-case to begin with. -/
theorem char_toUpper_not_lower (c : Char) : (Char.toUpper c).isLower = false := by
  unfold Char.toUpper
  by_cases h : c.toNat ≥ 97 ∧ c.toNat ≤ 122
  · rw [if_pos h]
    obtain ⟨h1, h2⟩ := h
    have h65 : 65 ≤ c.toNat - 32 := by omega
    have h90 : c.toNat - 32 ≤ 90 := by omega
    generalize c.toNat - 32 = m at h65 h90
    interval_cases m <;> decide
  · rw [if_neg h]
    rw [Bool.eq_false_iff]
    intro hl
    exact h ⟨((char_isLower_iff c).mp hl).1, ((char_isLower_iff c).mp hl).2⟩

/-- The first word emitted by the split scanner is never empty. -/
theorem splitWsAux_first_ne_nil :
    ∀ (s acc : List Char) (w : List Char) (ws : List (List Char)),
      splitWsAux s acc = w :: ws → w ≠ [] := by
  intro s
  induction s with
  | nil =>
    intro acc w ws h
    rw [splitWsAux] at h
    by_cases ha : acc = []
    · rw [if_pos ha] at h
      cases h
    · rw [if_neg ha] at h
      injection h with h1 h2
      rw [← h1]
      simpa using ha
  | cons c cs ih =>
    intro acc w ws h
    rw [splitWsAux] at h
    by_cases hw : c.isWhitespace = true
    · rw [if_pos hw] at h
      by_cases ha : acc = []
      · rw [if_pos ha] at h
        exact ih [] w ws h
      · rw [if_neg ha] at h
        injection h with h1 h2
        rw [← h1]
        simpa using ha
    · rw [if_neg hw] at h
      exact ih (c :: acc) w ws h

/-- The split scanner returns at least one word when the remaining
input has a non-whitespace character or a word is being read. -/
theorem splitWsAux_ne_nil :
    ∀ (s acc : List Char),
      ((∃ x ∈ s, x.isWhitespace = false) ∨ acc ≠ []) →
      splitWsAux s acc ≠ [] := by
  intro s
  induction s with
  | nil =>
    intro acc h
    rcases h with h | h
    · obtain ⟨x, hx, _⟩ := h
      cases hx
    · rw [splitWsAux, if_neg h]
      simp
  | cons c cs ih =>
    intro acc h
    rw [splitWsAux]
    by_cases hw : c.isWhitespace = true
    · rw [if_pos hw]
      by_cases ha : acc = []
      · rw [if_pos ha]
        apply ih []
        left
        rcases h with h | h
        · obtain ⟨x, hx, hxw⟩ := h
          rcases List.mem_cons.mp hx with h1 | h1
          · rw [h1] at hxw
            rw [hw] at hxw
            cases hxw
          · exact ⟨x, h1, hxw⟩
        · exact absurd ha h
      · rw [if_neg ha]
        simp
    · rw [if_neg hw]
      exact ih (c :: acc) (Or.inr (by simp))

/-- Joining puts the first word at the front of the result. -/
theorem joinWords_cons (w : List Char) (ws : List (List Char)) :
    ∃ r, joinWords (w :: ws) = w ++ r := by
  cases ws with
  | nil => exact ⟨[], (List.append_nil w).symm⟩
  | cons x ws2 => exact ⟨' ' :: joinWords (x :: ws2), rfl⟩

/-- On a non-empty answer whose first character is not lower-case, the
final-punctuation pass keeps the first character, keeps the answer
non-empty, and makes the last character one of `.`, `!`, `?`. -/
theorem ensureEndPunct_head_last (c : Char) (t : List Char)
    (hc : c.isLower = false) :
    ensureEndPunct (c :: t) ≠ [] ∧
    (∀ x, (ensureEndPunct (c :: t)).head? = some x → x.isLower = false) ∧
    (∃ x, (ensureEndPunct (c :: t)).getLast? = some x ∧
      (x = '.' ∨ x = '!' ∨ x = '?')) := by
  have hne : (c :: t) ≠ ([] : List Char) := by simp
  have hlc : (c :: t).getLast? = some ((c :: t).getLast hne) :=
    List.getLast?_eq_getLast (c :: t) hne
  have hred : ensureEndPunct (c :: t) =
      if (c :: t).getLast hne = '.' ∨ (c :: t).getLast hne = '!' ∨
          (c :: t).getLast hne = '?'
      then c :: t else (c :: t) ++ ['.'] := by
    unfold ensureEndPunct
    rw [hlc]
  rw [hred]
  by_cases hp : (c :: t).getLast hne = '.' ∨ (c :: t).getLast hne = '!' ∨
      (c :: t).getLast hne = '?'
  · rw [if_pos hp]
    refine ⟨hne, ?_, ⟨(c :: t).getLast hne, hlc, hp⟩⟩
    intro x hx
    rw [List.head?_cons, Option.some.injEq] at hx
    rw [← hx]
    exact hc
  · rw [if_neg hp]
    refine ⟨by simp, ?_, ⟨'.', List.getLast?_concat (c :: t), Or.inl rfl⟩⟩
    intro x hx
    rw [List.cons_append, List.head?_cons, Option.some.injEq] at hx
    rw [← hx]
    exact hc

/-- Claim C10, counterexample: the single-space answer is non-empty,
yet `post_process_answer` maps it to the empty string — the whitespace
collapse `' '.join(answer.split())` erases it, and the empty string
then skips both normalization guards. -/
theorem post_process_empty_cex :
    postProcessAnswer [' '] = [] ∧ ([' '] : List Char) ≠ [] := by
  decide

/-- Claim C10, amended: for every input containing at least one
non-whitespace character, `post_process_answer` returns a non-empty
string whose first character is not a lower-case letter and whose last
character is one of `.`, `!`, `?`; an input that is non-empty but all
whitespace instead yields the empty string (see the counterexample).
The normalization is applied to every successfully generated answer
and summary before it leaves the generator. -/
theorem post_process_normalizes (s : List Char)
    (h : ∃ c ∈ s, c.isWhitespace = false) :
    postProcessAnswer s ≠ [] ∧
    (∀ c, (postProcessAnswer s).head? = some c → c.isLower = false) ∧
    (∃ c, (postProcessAnswer s).getLast? = some c ∧
      (c = '.' ∨ c = '!' ∨ c = '?')) ∧
    (∀ raw, generateAnswerFromModel (Except.ok raw) = postProcessAnswer raw) ∧
    (∀ text maxLength raw,
      generateSummaryFromModel text maxLength (Except.ok raw) =
        postProcessAnswer raw) := by
  have hsp : splitWs s ≠ [] := splitWsAux_ne_nil s [] (Or.inl h)
  obtain ⟨w, ws, hw⟩ := List.exists_cons_of_ne_nil hsp
  have hwne : w ≠ [] := splitWsAux_first_ne_nil s [] w ws hw
  obtain ⟨c0, w2, hc0⟩ := List.exists_cons_of_ne_nil hwne
  obtain ⟨r, hr⟩ := joinWords_cons w ws
  have hmain : ensureEndPunct (capitalizeFirst (joinWords (splitWs s))) ≠ [] ∧
      (∀ c, (ensureEndPunct (capitalizeFirst (joinWords (splitWs s)))).head?
        = some c → c.isLower = false) ∧
      (∃ c, (ensureEndPunct (capitalizeFirst (joinWords (splitWs s)))).getLast?
        = some c ∧ (c = '.' ∨ c = '!' ∨ c = '?')) := by
    rw [hw, hr, hc0, List.cons_append, capitalizeFirst]
    by_cases hl : c0.isLower = true
    · rw [if_pos hl]
      exact ensureEndPunct_head_last (Char.toUpper c0) (w2 ++ r)
        (char_toUpper_not_lower c0)
    · rw [if_neg hl]
      exact ensureEndPunct_head_last c0 (w2 ++ r) (Bool.eq_false_iff.mpr hl)
  exact ⟨hmain.1, hmain.2.1, hmain.2.2, fun raw => rfl, fun text m raw => rfl⟩

/-- Witness for the amended C10 at a concrete two-word answer. -/
theorem post_process_normalizes_witness :
    postProcessAnswer ("hi there".data) ≠ [] :=
  (post_process_normalizes ("hi there".data) (by decide)).1

/-! ## Claims about the QA service -/

theorem exceptBind_ok {e a b : Type} (x : a) (f : a → Except e b) :
    (Except.ok x >>= f : Except e b) = f x :=
  rfl

theorem exceptBind_error {e a b : Type} (x : e) (f : a → Except e b) :
    (Except.error x >>= f : Except e b) = Except.error x :=
  rfl

/-- Claim C5: when retrieval returns zero results (after a successful
query translation), `answer_question` returns the canned not-found
response with `success = false`, and the generation stage is never
invoked: the returned response is the same whatever function is
installed as the generation capability. -/
theorem no_results_short_circuit (env : QAEnv) (query : String)
    (language : Option String) (topK : Option Nat) (includeSources : Bool)
    (tr : TransQueryResult)
    (htr : env.translateQuery query language = .ok tr)
    (hret : env.retrieve tr.english_query topK = .ok []) :
    answerQuestion env query language topK includeSources =
      noResultsResponse tr.detected_language ∧
    (answerQuestion env query language topK includeSources).success = false ∧
    (answerQuestion env query language topK includeSources).answer =
      notFoundAnswer ∧
    (∀ g, answerQuestion { env with generateAnswer := g }
        query language topK includeSources =
      noResultsResponse tr.detected_language) := by
  have hbody : ∀ (e : QAEnv), e.translateQuery = env.translateQuery →
      e.retrieve = env.retrieve →
      answerQuestionBody e query language topK includeSources =
        .ok (noResultsResponse tr.detected_language) := by
    intro e h1 h2
    unfold answerQuestionBody
    rw [h1, h2]
    simp only [htr, hret, exceptBind_ok]
    rfl
  have hq : answerQuestion env query language topK includeSources =
      noResultsResponse tr.detected_language := by
    unfold answerQuestion
    rw [hbody env rfl rfl]
  refine ⟨hq, by rw [hq]; rfl, by rw [hq]; rfl, ?_⟩
  intro g
  unfold answerQuestion
  rw [hbody { env with generateAnswer := g } rfl rfl]

/-- Witness for C5 on a concrete environment whose index is empty. -/
theorem no_results_short_circuit_witness :
    answerQuestion envNoHits "q" none none true = noResultsResponse "en" :=
  (no_results_short_circuit envNoHits "q" none none true
    { original_query := "q", detected_language := "en", english_query := "q" }
    rfl rfl).1

/-- Claim C6: `answer_question` never propagates an exception: when the
pipeline body succeeds its response is returned as-is, and when any
stage raises, the exception is caught and converted into the fixed
error response (which still carries an answer, a language and
`success = false`).  Since the result type is a total function into the
response structure, every call returns a well-formed response. -/
theorem answer_question_catches_exceptions (env : QAEnv) (query : String)
    (language : Option String) (topK : Option Nat) (includeSources : Bool) :
    (∃ r, answerQuestionBody env query language topK includeSources = .ok r ∧
      answerQuestion env query language topK includeSources = r) ∨
    (∃ e, answerQuestionBody env query language topK includeSources = .error e ∧
      answerQuestion env query language topK includeSources =
        errorResponse language e ∧
      (errorResponse language e).success = false ∧
      (errorResponse language e).answer = pipelineErrorAnswer) := by
  unfold answerQuestion
  cases h : answerQuestionBody env query language topK includeSources with
  | ok r => exact Or.inl ⟨r, rfl, rfl⟩
  | error e => exact Or.inr ⟨e, rfl, rfl, rfl, rfl⟩

/-- Claim C8: batch answering returns exactly one response per query,
in input order; the response at position `i` is exactly
`answer_question` applied to the `i`-th query, so one query's failure
(which yields the `success = false` error response at its position)
never aborts the processing of the other queries. -/
theorem batch_one_response_per_query (env : QAEnv) (queries : List String)
    (language : Option String) :
    (batchAnswerQuestions env queries language).length = queries.length ∧
    (∀ i : Nat, (batchAnswerQuestions env queries language)[i]? =
      (queries[i]?).map (fun q => answerQuestion env q language none true)) ∧
    (∀ (i : Nat) (q e : String), queries[i]? = some q →
      answerQuestionBody env q language none true = .error e →
      (batchAnswerQuestions env queries language)[i]? =
        some (errorResponse language e)) := by
  have hmap : ∀ i : Nat, (batchAnswerQuestions env queries language)[i]? =
      (queries[i]?).map (fun q => answerQuestion env q language none true) := by
    intro i
    induction queries generalizing i with
    | nil => rw [batchAnswerQuestions]; rfl
    | cons q rest ih =>
      rw [batchAnswerQuestions]
      cases i with
      | zero => simp
      | succ j =>
        rw [List.getElem?_cons_succ, List.getElem?_cons_succ]
        exact ih j
  have hlen : (batchAnswerQuestions env queries language).length =
      queries.length := by
    clear hmap
    induction queries with
    | nil => rfl
    | cons q rest ih =>
      rw [batchAnswerQuestions, List.length_cons, List.length_cons, ih]
  refine ⟨hlen, hmap, ?_⟩
  intro i q e hq he
  have hval : answerQuestion env q language none true = errorResponse language e := by
    unfold answerQuestion
    rw [he]
  rw [hmap i, hq]
  show some (answerQuestion env q language none true) =
    some (errorResponse language e)
  rw [hval]

/-- Witness for C8: a two-query batch against an environment whose
translation stage raises still yields one (error) response per query. -/
theorem batch_one_response_per_query_witness :
    (batchAnswerQuestions envStageRaises ["a", "b"] none).length = 2 ∧
    (batchAnswerQuestions envStageRaises ["a", "b"] none)[1]? =
      some (errorResponse none "translation backend down") :=
  ⟨(batch_one_response_per_query envStageRaises ["a", "b"] none).1,
    (batch_one_response_per_query envStageRaises ["a", "b"] none).2.2
      1 "b" "translation backend down" rfl rfl⟩
